import Mathlib

/-!
Verification of the github-dl tool (src/main.rs) against its specification.

The development shallowly embeds the core of the program:
  - the link parser `parse_github_link`,
  - the metadata descriptor (serde JSON document round trip),
  - the directory resolver `download_dir` (remote trees and HTTP responses are
    supplied as oracles; filesystem and network effects are recorded as an
    event trace),
  - the refresh orchestrator (the per-descriptor loop of `run`),
  - the descriptor discovery walk `find_metadata_files`.

External collaborators (the `url` crate, `serde_json`, `reqwest`, `std::fs`)
are modelled at their interface: a parsed URL is a record of host and path
segments, a JSON document is an abstract syntax tree, HTTP responses are
oracle functions, and filesystem mutations are trace events.
-/

namespace GithubDl

/-- Result of `Url::parse` from the `url` crate, as consumed by
`parse_github_link`: the host (`Url::host_str`, absent for URLs without a
host) and the path segments (`Url::path_segments`: the path split on the
slash after the leading slash, empty segments preserved, `none` for
cannot-be-a-base URLs). -/
structure UrlModel where
  hostStr : Option String
  pathSegments : Option (List String)
deriving DecidableEq, Repr

/-- The five-field persisted descriptor, `struct Metadata` of main.rs. -/
structure Metadata where
  owner : String
  repo : String
  reference : String
  path : String
  url : String
deriving DecidableEq, Repr

/-- The coordinates produced by the link parser, `struct ParsedLink`. -/
structure ParsedLink where
  owner : String
  repo : String
  reference : String
  path : String
deriving DecidableEq, Repr

/-- The distinct error exits of the program. The source returns boxed string
errors; each constructor corresponds to one `return Err(...)` site and
`errMessage` recovers the exact message text. -/
inductive Err where
  | missingHost
  | wrongHost
  | noPathSegments
  | unsupportedShape
  | outputNotEmpty (dir : List String)
  | rateLimited
  | listingFailed (status : Nat)
  | fileDownloadFailed (url : String) (status : Nat)
  | corruptMetadata
deriving DecidableEq, Repr

/-- The message text carried by each error, taken verbatim from main.rs. -/
def errMessage : Err → String
  | .missingHost => "Invalid URL: missing host"
  | .wrongHost => "URL is not a github.com link"
  | .noPathSegments => "Cannot parse URL path segments"
  | .unsupportedShape => "URL must be in the format https://github.com/owner/repo/tree/ref[/path]"
  | .outputNotEmpty d => "Output directory \x27" ++ String.intercalate "/" d ++ "\x27 is not empty"
  | .rateLimited => "Failed to list directory: HTTP 403 Forbidden. Are you hitting the GitHub API rate limit? Try setting the GITHUB_TOKEN environment variable."
  | .listingFailed s => "Failed to list directory: HTTP " ++ toString s
  | .fileDownloadFailed u s => "Failed to download file " ++ u ++ ": HTTP " ++ toString s
  | .corruptMetadata => "invalid descriptor JSON"

instance {ε α : Type} [DecidableEq ε] [DecidableEq α] : DecidableEq (Except ε α) := fun x y =>
  match x, y with
  | .ok a, .ok b =>
      if h : a = b then .isTrue (h ▸ rfl) else .isFalse (fun hc => h (Except.ok.inj hc))
  | .error a, .error b =>
      if h : a = b then .isTrue (h ▸ rfl) else .isFalse (fun hc => h (Except.error.inj hc))
  | .ok _, .error _ => .isFalse (fun hc => Except.noConfusion hc)
  | .error _, .ok _ => .isFalse (fun hc => Except.noConfusion hc)

/-- `parse_github_link` of main.rs, after `Url::parse` has succeeded (the
input is the parsed URL record). Mirrors the source line by line: reject a
missing host, reject a host other than github.com, reject unavailable path
segments, require at least 4 segments with segment 2 equal to `tree`, and
build owner, repo, reference and the joined tail path. Like the source it
returns the parsed link together with the URL. -/
def parse_github_link (u : UrlModel) : Except Err (ParsedLink × UrlModel) :=
  match u.hostStr with
  | none => .error .missingHost
  | some host =>
    if host ≠ "github.com" then .error .wrongHost
    else
      match u.pathSegments with
      | none => .error .noPathSegments
      | some segments =>
        if segments.length < 4 ∨ segments[2]? ≠ some "tree" then .error .unsupportedShape
        else
          let owner := segments.getD 0 ""
          let repo := segments.getD 1 ""
          let reference := segments.getD 3 ""
          let path := if segments.length > 4 then String.intercalate "/" (segments.drop 4) else ""
          .ok (⟨owner, repo, reference, path⟩, u)

/-- C1 counterexample input: the parse of the well-formed URL
https://github.com/acme/widgets/tree/main/src/ (note the trailing slash).
Its segment list ends with an empty segment, which the claim would drop. -/
def uC1 : UrlModel :=
  ⟨some "github.com", some ["acme", "widgets", "tree", "main", "src", ""]⟩

/-- C2 counterexample input: the parse of the well-formed URL
https://github.com/a//tree/ref (note the doubled slash). Dropping the empty
segment leaves only 3 segments, yet the code accepts the link. -/
def uC2 : UrlModel :=
  ⟨some "github.com", some ["a", "", "tree", "ref"]⟩

/-- C1 (counterexample): for the URL https://github.com/acme/widgets/tree/main/src/
the claim hypotheses hold after removing empty segments (5 segments,
segment 2 is tree), and the claim predicts path src, but
parse_github_link returns path src/ (the trailing empty segment is kept
and joined). -/
theorem parse_trailing_slash_cex :
    (List.filter (fun s => decide (s ≠ "")) ["acme", "widgets", "tree", "main", "src", ""]
      = ["acme", "widgets", "tree", "main", "src"])
    ∧ parse_github_link uC1 ≠ .ok (⟨"acme", "widgets", "main", "src"⟩, uC1)
    ∧ parse_github_link uC1 = .ok (⟨"acme", "widgets", "main", "src/"⟩, uC1) := by
  refine ⟨by decide, ?_, ?_⟩ <;> decide

/-- C1 (amended): for every parsed URL with host github.com whose segment
list, as produced by the URL parser (split on slash, empty segments kept),
has a shape a :: b :: tree :: d :: rest, parsing succeeds with owner a,
repo b, reference d, and path the join of rest with slash (empty when rest
is empty). -/
theorem parse_ok_shape (u : UrlModel) (a b d : String) (rest : List String)
    (hh : u.hostStr = some "github.com")
    (hp : u.pathSegments = some (a :: b :: "tree" :: d :: rest)) :
    parse_github_link u = .ok (⟨a, b, d, String.intercalate "/" rest⟩, u) := by
  unfold parse_github_link
  rw [hh, hp]
  cases rest with
  | nil => rfl
  | cons x xs =>
      simp only [List.length_cons, List.getElem?_cons_succ, List.getElem?_cons_zero]
      have hc : ¬ (xs.length + 1 + 1 + 1 + 1 + 1 < 4 ∨ some "tree" ≠ some "tree") := by
        simp
      rw [if_neg (by simp : ¬ ("github.com" ≠ "github.com")), if_neg hc]
      have hg : xs.length + 1 + 1 + 1 + 1 + 1 > 4 := by omega
      simp only [List.getD, if_pos hg]
      rfl

/-- C1 witness: the documented example link
https://github.com/acme/widgets/tree/main/src/lib parses to owner acme,
repo widgets, reference main, path src/lib. -/
theorem parse_ok_shape_witness :
    parse_github_link ⟨some "github.com", some ["acme", "widgets", "tree", "main", "src", "lib"]⟩
      = .ok (⟨"acme", "widgets", "main", "src/lib"⟩,
             ⟨some "github.com", some ["acme", "widgets", "tree", "main", "src", "lib"]⟩) := by
  have h := parse_ok_shape
    ⟨some "github.com", some ["acme", "widgets", "tree", "main", "src", "lib"]⟩
    "acme" "widgets" "main" ["src", "lib"] rfl rfl
  simpa using h

/-- C2 (counterexample): for the URL https://github.com/a//tree/ref the
segment list with empty segments removed has only 3 entries, so the claim
predicts failure, yet parse_github_link succeeds (the raw segment list has
4 entries with segment 2 equal to tree). -/
theorem parse_empty_segment_cex :
    (List.filter (fun s => decide (s ≠ "")) ["a", "", "tree", "ref"]).length = 3
    ∧ parse_github_link uC2 = .ok (⟨"a", "", "ref", ""⟩, uC2) := by
  refine ⟨by decide, by decide⟩

/-- C2 (amended): over the raw segment list produced by the URL parser
(empty segments kept): a host other than github.com fails with the wrong
host error (checked first), and with host github.com a segment list that is
shorter than 4 or whose segment 2 is not tree fails with the unsupported
shape error. No coordinates are produced in either case. -/
theorem parse_err_cases (u : UrlModel) (host : String) (segs : List String)
    (hh : u.hostStr = some host) (hp : u.pathSegments = some segs) :
    (host ≠ "github.com" → parse_github_link u = .error .wrongHost)
    ∧ (host = "github.com" → segs.length < 4 ∨ segs[2]? ≠ some "tree" →
        parse_github_link u = .error .unsupportedShape) := by
  constructor
  · intro hne
    unfold parse_github_link
    rw [hh]
    simp [hne]
  · intro he hbad
    subst he
    unfold parse_github_link
    rw [hh, hp]
    simp [hbad]

/-- C2 witness: a gitlab.com link fails with the wrong host error, and a
github.com link with only 3 segments fails with the unsupported shape
error. -/
theorem parse_err_cases_witness :
    parse_github_link ⟨some "gitlab.com", some ["a", "b", "tree", "r"]⟩ = .error .wrongHost
    ∧ parse_github_link ⟨some "github.com", some ["a", "b", "blob"]⟩
        = .error .unsupportedShape := by
  constructor
  · exact (parse_err_cases ⟨some "gitlab.com", some ["a", "b", "tree", "r"]⟩
      "gitlab.com" ["a", "b", "tree", "r"] rfl rfl).1 (by decide)
  · exact (parse_err_cases ⟨some "github.com", some ["a", "b", "blob"]⟩
      "github.com" ["a", "b", "blob"] rfl rfl).2 rfl (by decide)

/-- A JSON document, the value level of serde_json. The descriptor file
holds the pretty-printed rendering of such a document; serde_json is the
external collaborator whose rendering and re-parsing of a document are
mutually inverse, so reading a written file is modelled as handing the
written document back to the deserializer. -/
inductive Json where
  | null
  | bool (b : Bool)
  | num (n : Int)
  | str (s : String)
  | arr (xs : List Json)
  | obj (fields : List (String × Json))

/-- Field lookup of the derived serde deserializer: the first occurrence of
the key must hold a JSON string. -/
def jsonGetStr : List (String × Json) → String → Option String
  | [], _ => none
  | (k, v) :: rest, key =>
    if k = key then
      match v with
      | .str s => some s
      | _ => none
    else jsonGetStr rest key

/-- Serialization of `Metadata` by the derived serde serializer
(`serde_json::to_string_pretty` at the document level): an object with the
five fields in declaration order. -/
def metadataToJson (m : Metadata) : Json :=
  .obj [("owner", .str m.owner), ("repo", .str m.repo), ("reference", .str m.reference),
        ("path", .str m.path), ("url", .str m.url)]

/-- Deserialization of `Metadata` by the derived serde deserializer
(`serde_json::from_str` at the document level): the document must be an
object carrying all five fields as strings; anything else is the corrupt
metadata failure. -/
def metadataFromJson : Json → Option Metadata
  | .obj fields => do
    let owner ← jsonGetStr fields "owner"
    let repo ← jsonGetStr fields "repo"
    let reference ← jsonGetStr fields "reference"
    let path ← jsonGetStr fields "path"
    let url ← jsonGetStr fields "url"
    pure ⟨owner, repo, reference, path, url⟩
  | _ => none

/-- C6: writing a descriptor through the metadata store and reading the
written file back yields a descriptor equal field for field to the
original. -/
theorem metadata_roundtrip (m : Metadata) :
    metadataFromJson (metadataToJson m) = some m := by
  rfl

/-- One observable effect of the program. Filesystem paths are segment
lists; remote interactions record the requested URL. The event trace of a
run records effects in program order. -/
inductive Event where
  | createDirAll (p : List String)
  | listingFetch (url : String)
  | fileFetch (url : String)
  | writeFile (p : List String) (bytes : List Nat)
  | removeFile (p : List String)
  | removeDirAll (p : List String)
  | metaWrite (p : List String) (doc : Json)
  | printLn (s : String)
  | warn (s : String)

/-- Whether an event is a remote fetch (a GET issued by the program). -/
def isFetchEvent : Event → Bool
  | .listingFetch _ => true
  | .fileFetch _ => true
  | _ => false

/-- Whether an event mutates the local filesystem. -/
def isFsMutation : Event → Bool
  | .createDirAll _ => true
  | .writeFile _ _ => true
  | .removeFile _ => true
  | .removeDirAll _ => true
  | .metaWrite _ _ => true
  | _ => false

/-- `reqwest::StatusCode::is_success`: 2xx statuses. -/
def is_success (s : Nat) : Bool := decide (200 ≤ s ∧ s < 300)

/-- The listing URL built by `run` and `download_dir` (identical code in
both): the contents endpoint, with the path segment omitted when the path
is empty. -/
def listingUrl (m : Metadata) : String :=
  if m.path = "" then
    "https://api.github.com/repos/" ++ m.owner ++ "/" ++ m.repo
      ++ "/contents?ref=" ++ m.reference
  else
    "https://api.github.com/repos/" ++ m.owner ++ "/" ++ m.repo
      ++ "/contents/" ++ m.path ++ "?ref=" ++ m.reference

mutual
/-- The remote state behind one listing URL: the HTTP status of a GET on it
and, on success, the decoded entry list (`Vec<Content>`). -/
inductive RTree : Type where
  | node : Nat → List REntry → RTree

/-- One decoded `Content` entry: name, the `type` discriminator string, the
optional `download_url`, and the remote state behind the child listing URL
(consulted by the program only when the discriminator is `dir`). -/
inductive REntry : Type where
  | mk : String → String → Option String → RTree → REntry
end

/-- Oracle for GETs on `download_url` values: status and body bytes. -/
abbrev FileFetcher := String → Nat × List Nat

mutual
/-- `download_dir` of main.rs. Creates the local directory, fetches the
listing (403 is the rate-limit failure, any other non-2xx fails with the
status), then processes the decoded entries in order via
`downloadEntries`. Returns the outcome and the event trace. -/
def download_dir (ff : FileFetcher) (meta : Metadata) (localPath : List String) :
    RTree → Except Err Unit × List Event
  | .node status entries =>
    let pre := [Event.createDirAll localPath, Event.listingFetch (listingUrl meta)]
    if status = 403 then (.error .rateLimited, pre)
    else if !(is_success status) then (.error (.listingFailed status), pre)
    else
      let r := downloadEntries ff meta localPath entries
      (r.1, pre ++ r.2)

/-- The entry loop of `download_dir`: a `file` entry with a download URL is
fetched (a non-2xx response aborts the call) and its bytes written to
`localPath/name`; a `file` entry without a download URL is passed over; a
`dir` entry gets a local directory, child coordinates with `name` appended
to the path (joined with a slash, or alone when the path was empty), and a
recursive resolve; any other kind is ignored. An error aborts the loop. -/
def downloadEntries (ff : FileFetcher) (meta : Metadata) (localPath : List String) :
    List REntry → Except Err Unit × List Event
  | [] => (.ok (), [])
  | .mk name ty dlUrl sub :: rest =>
    let localFile := localPath ++ [name]
    if ty = "file" then
      match dlUrl with
      | some u =>
        let resp := ff u
        if !(is_success resp.1) then
          (.error (.fileDownloadFailed u resp.1), [Event.fileFetch u])
        else
          let r := downloadEntries ff meta localPath rest
          (r.1, Event.fileFetch u :: Event.writeFile localFile resp.2 :: r.2)
      | none => downloadEntries ff meta localPath rest
    else if ty = "dir" then
      let subMeta : Metadata :=
        { meta with path := if meta.path = "" then name else meta.path ++ "/" ++ name }
      let d := download_dir ff subMeta localFile sub
      match d.1 with
      | .error e => (.error e, Event.createDirAll localFile :: d.2)
      | .ok _ =>
        let r := downloadEntries ff meta localPath rest
        (r.1, Event.createDirAll localFile :: (d.2 ++ r.2))
    else downloadEntries ff meta localPath rest
end

/-- C10: a listing entry of kind file whose download URL is absent
contributes nothing to the resolve: no fetch, no local file, no error, and
the remaining entries are processed exactly as if the entry were not
there. -/
theorem skip_file_no_url (ff : FileFetcher) (meta : Metadata) (localPath : List String)
    (n : String) (t : RTree) (rest : List REntry) :
    downloadEntries ff meta localPath (.mk n "file" none t :: rest)
      = downloadEntries ff meta localPath rest := by
  rfl

/-- C3: resolving a successful listing holding one file entry with a
download URL and one directory entry creates the local directory, fetches
the file and writes the fetched bytes verbatim to localPath/name, creates
the same-named subdirectory, and recursively resolves it with coordinates
whose path is the parent path joined to the child name with a slash (the
name alone when the parent path is empty); the outcome is that of the
recursive resolve. -/
theorem resolve_file_and_dir (ff : FileFetcher) (meta : Metadata) (localPath : List String)
    (status : Nat) (n u d : String) (tf : RTree) (dUrl : Option String) (sub : RTree)
    (hs : is_success status = true) (hf : is_success (ff u).1 = true) :
    download_dir ff meta localPath (.node status [.mk n "file" (some u) tf, .mk d "dir" dUrl sub])
      = ((download_dir ff { meta with path := if meta.path = "" then d else meta.path ++ "/" ++ d }
            (localPath ++ [d]) sub).1,
         [Event.createDirAll localPath, Event.listingFetch (listingUrl meta),
          Event.fileFetch u, Event.writeFile (localPath ++ [n]) (ff u).2,
          Event.createDirAll (localPath ++ [d])]
           ++ (download_dir ff { meta with path := if meta.path = "" then d else meta.path ++ "/" ++ d }
                (localPath ++ [d]) sub).2) := by
  have h403 : status ≠ 403 := by
    simp [is_success] at hs
    omega
  simp only [download_dir, downloadEntries]
  rw [if_neg h403]
  simp only [hs, Bool.not_true, Bool.false_eq_true, if_false]
  simp only [hf, Bool.not_true, Bool.false_eq_true, if_false]
  simp only [reduceIte]
  cases hd : (download_dir ff { meta with path := if meta.path = "" then d else meta.path ++ "/" ++ d }
      (localPath ++ [d]) sub).1 <;> simp [hd]

/-- C3 witness: a concrete two-entry listing (file a.txt plus directory sub
with an empty remote subfolder) resolved into out with an empty parent
path: the file bytes land at out/a.txt and the subdirectory is resolved
with path sub. -/
theorem resolve_file_and_dir_witness :
    download_dir (fun _ => (200, [104, 105])) ⟨"o", "r", "m", "", "u"⟩ ["out"]
        (.node 200 [.mk "a.txt" "file" (some "dl") (.node 404 []),
                    .mk "sub" "dir" none (.node 200 [])])
      = (.ok (), [Event.createDirAll ["out"],
                  Event.listingFetch "https://api.github.com/repos/o/r/contents?ref=m",
                  Event.fileFetch "dl", Event.writeFile ["out", "a.txt"] [104, 105],
                  Event.createDirAll ["out", "sub"], Event.createDirAll ["out", "sub"],
                  Event.listingFetch "https://api.github.com/repos/o/r/contents/sub?ref=m"]) := by
  have h := resolve_file_and_dir (fun _ => (200, [104, 105])) ⟨"o", "r", "m", "", "u"⟩ ["out"]
      200 "a.txt" "dl" "sub" (.node 404 []) none (.node 200 []) rfl rfl
  exact h.trans (by rfl)

/-- The fixed descriptor filename. -/
def metaFileName : String := ".github-dl.json"

/-- One descriptor discovered during refresh, together with the oracle data
the loop body observes for it: the folder holding the descriptor file, the
JSON document read from that file, the HTTP status of the listing probe,
the directory entries of the folder (name and whether the entry is a
directory), and the remote state used by the re-download. -/
structure RefreshItem where
  localDir : List String
  metaJson : Json
  probeStatus : Nat
  localEntries : List (String × Bool)
  remote : RTree

/-- The clearing loop of the refresh branch of `run`: every entry of the
folder except the descriptor file itself is removed, files individually
and directories recursively, in directory order. -/
def clearEvents (dir : List String) (entries : List (String × Bool)) : List Event :=
  entries.filterMap fun e =>
    if e.1 = metaFileName then none
    else if e.2 then some (.removeDirAll (dir ++ [e.1]))
    else some (.removeFile (dir ++ [e.1]))

/-- The per-descriptor loop of the refresh branch of `run`: read and decode
the descriptor (a decode failure aborts the run), announce the refresh,
probe the listing URL; a 404 probe skips the descriptor with a warning and
continues, a 403 probe aborts the run with the rate-limit error, any other
non-2xx probe aborts the run with the status; on a 2xx probe the folder is
cleared except for the descriptor file and `download_dir` re-populates it
with the decoded descriptor, after which the loop continues (a download
failure aborts the run). -/
def refreshList (ff : FileFetcher) : List RefreshItem → Except Err Unit × List Event
  | [] => (.ok (), [])
  | item :: rest =>
    match metadataFromJson item.metaJson with
    | none => (.error .corruptMetadata, [])
    | some meta =>
      let pre := [Event.printLn ("Refreshing \x27" ++ meta.url ++ "\x27"),
                  Event.listingFetch (listingUrl meta)]
      if item.probeStatus = 404 then
        let r := refreshList ff rest
        (r.1, pre ++ [Event.warn ("Remote folder " ++ meta.url ++ " does not exist, skipping")]
                ++ r.2)
      else if item.probeStatus = 403 then (.error .rateLimited, pre)
      else if !(is_success item.probeStatus) then
        (.error (.listingFailed item.probeStatus), pre)
      else
        let cl := clearEvents item.localDir item.localEntries
        let d := download_dir ff meta item.localDir item.remote
        match d.1 with
        | .error e => (.error e, pre ++ cl ++ d.2)
        | .ok _ =>
          let r := refreshList ff rest
          (r.1, pre ++ cl ++ d.2
                  ++ [Event.printLn ("Refreshed \x27" ++ meta.url ++ "\x27")] ++ r.2)

/-- The download branch of `run`: parse the link, reject an existing
non-empty output directory, create the output directory, serialize the
descriptor built from the parsed coordinates and the original link and
write it to the descriptor file, then resolve the remote folder into the
output directory. -/
def run_download (ff : FileFetcher) (u : UrlModel) (link : String) (output : List String)
    (outputExists outputNonempty : Bool) (remote : RTree) : Except Err Unit × List Event :=
  match parse_github_link u with
  | .error e => (.error e, [])
  | .ok (parsed, _) =>
    if outputExists && outputNonempty then (.error (.outputNotEmpty output), [])
    else
      let meta : Metadata := ⟨parsed.owner, parsed.repo, parsed.reference, parsed.path, link⟩
      let metaPath := output ++ [metaFileName]
      let pre := [Event.createDirAll output, Event.metaWrite metaPath (metadataToJson meta)]
      let d := download_dir ff meta output remote
      match d.1 with
      | .error e => (.error e, pre ++ d.2)
      | .ok _ =>
        (.ok (), pre ++ d.2
            ++ [Event.printLn ("Downloaded to " ++ String.intercalate "/" output)])

/-- C4: a descriptor whose listing probe returns 404 is skipped with a
warning: the loop contributes only the announcement, the probe and the
warning for it (no folder deletion, no error), and the remaining
descriptors are processed exactly as without it. -/
theorem refresh_404_skips (ff : FileFetcher) (item : RefreshItem) (rest : List RefreshItem)
    (meta : Metadata) (hm : metadataFromJson item.metaJson = some meta)
    (hp : item.probeStatus = 404) :
    refreshList ff (item :: rest)
      = ((refreshList ff rest).1,
         [Event.printLn ("Refreshing \x27" ++ meta.url ++ "\x27"),
          Event.listingFetch (listingUrl meta),
          Event.warn ("Remote folder " ++ meta.url ++ " does not exist, skipping")]
           ++ (refreshList ff rest).2)
    ∧ ∀ e ∈ [Event.printLn ("Refreshing \x27" ++ meta.url ++ "\x27"),
             Event.listingFetch (listingUrl meta),
             Event.warn ("Remote folder " ++ meta.url ++ " does not exist, skipping")],
        isFsMutation e = false := by
  constructor
  · simp [refreshList, hm, hp]
  · simp [isFsMutation]

/-- C4 witness: a single descriptor with a 404 probe is skipped: the run
succeeds and the trace holds only the announcement, the probe and the
warning. -/
theorem refresh_404_skips_witness :
    refreshList (fun _ => (200, []))
        [⟨["d"], metadataToJson ⟨"o", "r", "m", "p", "u"⟩, 404, [("x", false)], .node 200 []⟩]
      = (.ok (), [Event.printLn "Refreshing \x27u\x27",
                  Event.listingFetch "https://api.github.com/repos/o/r/contents/p?ref=m",
                  Event.warn "Remote folder u does not exist, skipping"]) := by
  have h := (refresh_404_skips (fun _ => (200, []))
      ⟨["d"], metadataToJson ⟨"o", "r", "m", "p", "u"⟩, 404, [("x", false)], .node 200 []⟩
      [] ⟨"o", "r", "m", "p", "u"⟩ rfl rfl).1
  exact h.trans (by rfl)

/-- C5: a descriptor whose listing probe returns 403 aborts the whole
refresh run with the rate-limit error whose message carries the guidance
to set GITHUB_TOKEN; the trace stops at the probe, so no folder is cleared
and no remaining descriptor is processed. -/
theorem refresh_403_aborts (ff : FileFetcher) (item : RefreshItem) (rest : List RefreshItem)
    (meta : Metadata) (hm : metadataFromJson item.metaJson = some meta)
    (hp : item.probeStatus = 403) :
    refreshList ff (item :: rest)
      = (.error .rateLimited,
         [Event.printLn ("Refreshing \x27" ++ meta.url ++ "\x27"),
          Event.listingFetch (listingUrl meta)])
    ∧ errMessage .rateLimited
        = "Failed to list directory: HTTP 403 Forbidden. Are you hitting the GitHub API rate limit? Try setting the GITHUB_TOKEN environment variable." := by
  constructor
  · simp [refreshList, hm, hp]
  · rfl

/-- C5 witness: with a 403 probe on the first of two descriptors the run
fails with the rate-limit error and the second descriptor leaves no trace
at all. -/
theorem refresh_403_aborts_witness :
    refreshList (fun _ => (200, []))
        [⟨["d"], metadataToJson ⟨"o", "r", "m", "p", "u"⟩, 403, [("x", false)], .node 200 []⟩,
         ⟨["d2"], metadataToJson ⟨"o2", "r2", "m2", "p2", "u2"⟩, 200, [], .node 200 []⟩]
      = (.error .rateLimited,
         [Event.printLn "Refreshing \x27u\x27",
          Event.listingFetch "https://api.github.com/repos/o/r/contents/p?ref=m"]) := by
  have h := (refresh_403_aborts (fun _ => (200, []))
      ⟨["d"], metadataToJson ⟨"o", "r", "m", "p", "u"⟩, 403, [("x", false)], .node 200 []⟩
      [⟨["d2"], metadataToJson ⟨"o2", "r2", "m2", "p2", "u2"⟩, 200, [], .node 200 []⟩]
      ⟨"o", "r", "m", "p", "u"⟩ rfl rfl).1
  exact h.trans (by rfl)

/-- C7: on a successful probe the refresh step runs the clearing loop and
then re-downloads with the descriptor decoded from the descriptor file,
unchanged; the clearing events are exactly one removal per folder entry
other than the descriptor file (directories removed recursively, files
individually), and no clearing event ever touches the descriptor file
path. -/
theorem refresh_success_clears (ff : FileFetcher) (item : RefreshItem) (rest : List RefreshItem)
    (meta : Metadata) (hm : metadataFromJson item.metaJson = some meta)
    (hs : is_success item.probeStatus = true) :
    (∃ res tail, refreshList ff (item :: rest)
      = (res, [Event.printLn ("Refreshing \x27" ++ meta.url ++ "\x27"),
               Event.listingFetch (listingUrl meta)]
              ++ clearEvents item.localDir item.localEntries
              ++ (download_dir ff meta item.localDir item.remote).2 ++ tail))
    ∧ (∀ (dir : List String) (entries : List (String × Bool)) (e : Event),
        e ∈ clearEvents dir entries ↔
          ∃ n isDir, (n, isDir) ∈ entries ∧ n ≠ metaFileName
            ∧ e = (if isDir then Event.removeDirAll (dir ++ [n])
                   else Event.removeFile (dir ++ [n])))
    ∧ (∀ (dir : List String) (entries : List (String × Bool)) (e : Event),
        e ∈ clearEvents dir entries →
          e ≠ Event.removeFile (dir ++ [metaFileName])
            ∧ e ≠ Event.removeDirAll (dir ++ [metaFileName])) := by
  have h404 : item.probeStatus ≠ 404 := by simp [is_success] at hs; omega
  have h403 : item.probeStatus ≠ 403 := by simp [is_success] at hs; omega
  have hmem : ∀ (dir : List String) (entries : List (String × Bool)) (e : Event),
      e ∈ clearEvents dir entries ↔
        ∃ n isDir, (n, isDir) ∈ entries ∧ n ≠ metaFileName
          ∧ e = (if isDir then Event.removeDirAll (dir ++ [n])
                 else Event.removeFile (dir ++ [n])) := by
    intro dir entries e
    simp only [clearEvents, List.mem_filterMap]
    constructor
    · rintro ⟨⟨n, isDir⟩, hin, hf⟩
      by_cases hn : n = metaFileName
      · simp [hn] at hf
      · refine ⟨n, isDir, hin, hn, ?_⟩
        by_cases hd : isDir <;> simp [hn, hd] at hf <;> simp [hd, ← hf]
    · rintro ⟨n, isDir, hin, hn, he⟩
      refine ⟨(n, isDir), hin, ?_⟩
      by_cases hd : isDir <;> simp [hn, hd] at he ⊢ <;> simp [he]
  refine ⟨?_, hmem, ?_⟩
  · simp only [refreshList, hm]
    rw [if_neg h404, if_neg h403]
    simp only [hs, Bool.not_true, Bool.false_eq_true, if_false]
    cases hd : (download_dir ff meta item.localDir item.remote).1 with
    | error e =>
        refine ⟨.error e, [], ?_⟩
        simp [hd]
    | ok _ =>
        refine ⟨(refreshList ff rest).1,
          [Event.printLn ("Refreshed \x27" ++ meta.url ++ "\x27")] ++ (refreshList ff rest).2, ?_⟩
        simp [hd]
  · intro dir entries e he
    rcases (hmem dir entries e).1 he with ⟨n, isDir, hin, hn, hee⟩
    by_cases hd : isDir <;> simp [hd] at hee <;> subst hee <;>
      refine ⟨?_, ?_⟩ <;> intro hc <;> simp at hc <;> exact hn (by simpa using hc)

/-- C7 witness: a folder holding the descriptor file, one plain file and
one subdirectory, refreshed with a 200 probe: the clearing step is
instantiated concretely and all three conjuncts are discharged. -/
theorem refresh_success_clears_witness :
    (∃ res tail, refreshList (fun _ => (200, []))
        [⟨["d"], metadataToJson ⟨"o", "r", "m", "", "u"⟩, 200,
          [(".github-dl.json", false), ("f.txt", false), ("sub", true)], .node 200 []⟩]
      = (res, [Event.printLn "Refreshing \x27u\x27",
               Event.listingFetch "https://api.github.com/repos/o/r/contents?ref=m"]
              ++ clearEvents ["d"] [(".github-dl.json", false), ("f.txt", false), ("sub", true)]
              ++ (download_dir (fun _ => (200, [])) ⟨"o", "r", "m", "", "u"⟩ ["d"]
                    (.node 200 [])).2 ++ tail))
    ∧ (∀ (dir : List String) (entries : List (String × Bool)) (e : Event),
        e ∈ clearEvents dir entries ↔
          ∃ n isDir, (n, isDir) ∈ entries ∧ n ≠ metaFileName
            ∧ e = (if isDir then Event.removeDirAll (dir ++ [n])
                   else Event.removeFile (dir ++ [n])))
    ∧ (∀ (dir : List String) (entries : List (String × Bool)) (e : Event),
        e ∈ clearEvents dir entries →
          e ≠ Event.removeFile (dir ++ [metaFileName])
            ∧ e ≠ Event.removeDirAll (dir ++ [metaFileName])) :=
  refresh_success_clears (fun _ => (200, []))
    ⟨["d"], metadataToJson ⟨"o", "r", "m", "", "u"⟩, 200,
      [(".github-dl.json", false), ("f.txt", false), ("sub", true)], .node 200 []⟩
    [] ⟨"o", "r", "m", "", "u"⟩ rfl rfl

/-- C9: in the download branch of `run`, every remote fetch in the event
trace is preceded by the descriptor write: the descriptor file is on disk
before any listing or file GET is issued, so a later failure leaves it
behind. -/
theorem metaWrite_before_fetch (ff : FileFetcher) (u : UrlModel) (link : String)
    (output : List String) (oe one : Bool) (remote : RTree) (i : Nat) (e : Event)
    (he : (run_download ff u link output oe one remote).2[i]? = some e)
    (hf : isFetchEvent e = true) :
    ∃ j, j < i ∧ ∃ p doc,
      (run_download ff u link output oe one remote).2[j]?
        = some (Event.metaWrite p doc) := by
  have hshape : (run_download ff u link output oe one remote).2 = []
      ∨ ∃ doc t, (run_download ff u link output oe one remote).2
          = Event.createDirAll output :: Event.metaWrite (output ++ [metaFileName]) doc :: t := by
    unfold run_download
    cases parse_github_link u with
    | error err => exact Or.inl rfl
    | ok pr =>
      obtain ⟨parsed, u2⟩ := pr
      by_cases hne : (oe && one) = true
      · simp [hne]
      · simp only [hne, if_false, Bool.false_eq_true]
        cases hd : (download_dir ff ⟨parsed.owner, parsed.repo, parsed.reference, parsed.path, link⟩
            output remote).1 with
        | error e2 =>
            refine Or.inr ⟨metadataToJson ⟨parsed.owner, parsed.repo, parsed.reference,
                parsed.path, link⟩,
              (download_dir ff ⟨parsed.owner, parsed.repo, parsed.reference, parsed.path, link⟩
                output remote).2, ?_⟩
            simp [hd]
        | ok _ =>
            refine Or.inr ⟨metadataToJson ⟨parsed.owner, parsed.repo, parsed.reference,
                parsed.path, link⟩,
              (download_dir ff ⟨parsed.owner, parsed.repo, parsed.reference, parsed.path, link⟩
                output remote).2
                ++ [Event.printLn ("Downloaded to " ++ String.intercalate "/" output)], ?_⟩
            simp [hd]
  rcases hshape with hnil | ⟨doc, t, heq⟩
  · rw [hnil] at he
    simp at he
  · rw [heq] at he
    match i with
    | 0 =>
        simp at he
        rw [← he] at hf
        simp [isFetchEvent] at hf
    | 1 =>
        simp at he
        rw [← he] at hf
        simp [isFetchEvent] at hf
    | Nat.succ (Nat.succ k) =>
        refine ⟨1, by omega, output ++ [metaFileName], doc, ?_⟩
        rw [heq]
        simp

/-- C9 witness: a concrete download of an empty remote folder: the listing
fetch sits at index 3 of the trace and the descriptor write strictly
before it. -/
theorem metaWrite_before_fetch_witness :
    (run_download (fun _ => (200, [])) ⟨some "github.com", some ["o", "r", "tree", "m"]⟩
        "lnk" ["out"] false false (.node 200 [])).2[3]?
      = some (Event.listingFetch "https://api.github.com/repos/o/r/contents?ref=m")
    ∧ ∃ j, j < 3 ∧ ∃ p doc,
        (run_download (fun _ => (200, [])) ⟨some "github.com", some ["o", "r", "tree", "m"]⟩
          "lnk" ["out"] false false (.node 200 [])).2[j]?
          = some (Event.metaWrite p doc) := by
  refine ⟨by rfl, ?_⟩
  exact metaWrite_before_fetch (fun _ => (200, []))
    ⟨some "github.com", some ["o", "r", "tree", "m"]⟩
    "lnk" ["out"] false false (.node 200 []) 3
    (Event.listingFetch "https://api.github.com/repos/o/r/contents?ref=m") (by rfl) rfl

/-- One entry of a local directory as reported by `read_dir`: a plain file
or a subdirectory with its own entries. A directory is modelled by its
entry list. -/
inductive FsEntry : Type where
  | file : String → FsEntry
  | dir : String → List FsEntry → FsEntry

/-- `find_metadata_files` of main.rs over the directory `dir` with entries
`es`: walk the entries in order, recurse into subdirectories, and collect
the path of every file whose name is the descriptor filename. The source
accumulates into a mutable vector; the pushes happen in exactly this
order. -/
def find_metadata_files (dir : List String) : List FsEntry → List (List String)
  | [] => []
  | .dir n sub :: rest => find_metadata_files (dir ++ [n]) sub ++ find_metadata_files dir rest
  | .file n :: rest =>
      (if n = metaFileName then [dir ++ [n]] else []) ++ find_metadata_files dir rest

/-- p is the path of a descriptor file somewhere, at any depth, in the
directory tree rooted at dir with entries es. -/
inductive HasDescriptor : List String → List FsEntry → List String → Prop where
  | head_file (dir : List String) (rest : List FsEntry) :
      HasDescriptor dir (.file metaFileName :: rest) (dir ++ [metaFileName])
  | head_dir (dir : List String) (n : String) (sub rest : List FsEntry) (p : List String) :
      HasDescriptor (dir ++ [n]) sub p → HasDescriptor dir (.dir n sub :: rest) p
  | tail (dir : List String) (e : FsEntry) (rest : List FsEntry) (p : List String) :
      HasDescriptor dir rest p → HasDescriptor dir (e :: rest) p

/-- C8: discovery returns exactly the set of descriptor-file paths present
at any depth under the root: a path is in the result of
`find_metadata_files` precisely when it points at a file with the
descriptor filename somewhere in the tree. Sibling non-descriptor files
are irrelevant on both sides of the equivalence, and the depths 0, 2 and 5
instance of the claim is the special case of trees carrying descriptors at
those depths. -/
theorem find_metadata_files_mem : ∀ (es : List FsEntry) (dir p : List String),
    p ∈ find_metadata_files dir es ↔ HasDescriptor dir es p
  | [], dir, p => by
      simp only [find_metadata_files, List.not_mem_nil, false_iff]
      intro h
      cases h
  | .file n :: rest, dir, p => by
      have ih := find_metadata_files_mem rest dir p
      simp only [find_metadata_files, List.mem_append]
      constructor
      · rintro (h1 | h2)
        · by_cases hn : n = metaFileName
          · subst hn
            simp at h1
            subst h1
            exact HasDescriptor.head_file dir rest
          · simp [hn] at h1
        · exact HasDescriptor.tail dir _ rest p (ih.mp h2)
      · intro h
        cases h with
        | head_file => exact Or.inl (by simp)
        | tail _ _ _ _ h2 => exact Or.inr (ih.mpr h2)
  | .dir n sub :: rest, dir, p => by
      have ih1 := find_metadata_files_mem sub (dir ++ [n]) p
      have ih2 := find_metadata_files_mem rest dir p
      simp only [find_metadata_files, List.mem_append]
      constructor
      · rintro (h1 | h2)
        · exact HasDescriptor.head_dir dir n sub rest p (ih1.mp h1)
        · exact HasDescriptor.tail dir _ rest p (ih2.mp h2)
      · intro h
        cases h with
        | head_dir _ _ _ _ _ h1 => exact Or.inl (ih1.mpr h1)
        | tail _ _ _ _ h2 => exact Or.inr (ih2.mpr h2)
termination_by es => sizeOf es

end GithubDl
